import Mathlib

/-!
Verification of the KellyList repository (two Python batch scripts:
`kelly_to_anki.py` and `riksdagen_law_glossary_anki.py`) against its
natural-language specification.

The scripts are shallowly embedded: strings are `List Char`, the external
services (dictionary fetch, translation, HTTP download) are an explicit
environment of oracle functions, the audio directory is an explicit set of
file paths threaded through the run, and every network / synthesis call is
recorded as an `Event` so that theorems can speak about which calls happen.
-/

set_option maxRecDepth 10000

namespace KellyList

/-- Strings are modelled as lists of characters. -/
abbrev Str := List Char

/-- Python `str.strip` whitespace predicate, restricted to the ASCII and
Latin-1 characters Python treats as whitespace. -/
def pyIsSpace (c : Char) : Bool :=
  c = ' ' || c = '\t' || c = '\n' || c = '\r' || c = '\x0b' || c = '\x0c' ||
  c = '\x1c' || c = '\x1d' || c = '\x1e' || c = '\x1f' || c = '\x85' || c = '\xa0'

/-- Python `str.strip()`: drop leading and trailing whitespace. -/
def pyStrip (s : Str) : Str :=
  ((s.dropWhile pyIsSpace).reverse.dropWhile pyIsSpace).reverse

/-- Python `str.lower`, restricted to ASCII and the Latin-1 uppercase
letters (U+00C0 to U+00DE except the multiplication sign U+00D7). -/
def pyLowerChar (c : Char) : Char :=
  if 'A' ≤ c ∧ c ≤ 'Z' then Char.ofNat (c.toNat + 32)
  else if 0xC0 ≤ c.toNat ∧ c.toNat ≤ 0xDE ∧ c.toNat ≠ 0xD7 then Char.ofNat (c.toNat + 32)
  else c

/-- Python `str.lower` on a whole string. -/
def pyLower (s : Str) : Str := s.map pyLowerChar

/-- Python `str.isalnum`, restricted to the Basic Latin and Latin-1 range
(characters above U+00FF are treated as non-alphanumeric; the scripts only
ever see Swedish Latin-1 text). -/
def pyIsAlnum (c : Char) : Bool :=
  ('A' ≤ c && c ≤ 'Z') || ('a' ≤ c && c ≤ 'z') || ('0' ≤ c && c ≤ '9') ||
  (0xC0 ≤ c.toNat && c.toNat ≤ 0xFF && c.toNat ≠ 0xD7 && c.toNat ≠ 0xF7) ||
  c.toNat = 0xAA || c.toNat = 0xB5 || c.toNat = 0xBA ||
  c.toNat = 0xB2 || c.toNat = 0xB3 || c.toNat = 0xB9 ||
  c.toNat = 0xBC || c.toNat = 0xBD || c.toNat = 0xBE

/-- Boolean prefix test on character lists. -/
def strPrefix : Str → Str → Bool
  | [], _ => true
  | _ :: _, [] => false
  | p :: ps, c :: cs => p = c && strPrefix ps cs

/-- Python `pat in s`: substring containment. -/
def strContains : Str → Str → Bool
  | [], pat => pat.isEmpty
  | c :: rest, pat => strPrefix pat (c :: rest) || strContains rest pat

/-- Python `s.replace('\n', '<br>')` (kelly_to_anki.py line 167). -/
def replaceNl : Str → Str
  | [] => []
  | c :: rest =>
    if c = '\n' then '<' :: 'b' :: 'r' :: '>' :: replaceNl rest
    else c :: replaceNl rest

/-- `os.path.basename` for the slash-separated paths the scripts use:
everything after the last '/'. -/
def basename (s : Str) : Str :=
  (s.reverse.takeWhile (fun c => c ≠ '/')).reverse

/-- `os.path.join dir file` for a non-empty `dir` without a trailing slash:
returns `file` unchanged when it is absolute. -/
def joinPath (d f : Str) : Str :=
  match f with
  | '/' :: _ => f
  | _ => d ++ '/' :: f

/-- A quote character, as matched by the regex character class ['"]. -/
def isQuote (c : Char) : Bool := c = '"' || c = '\''

/-- Helper for `extract_mp3_url`: match `[^'"]+\.mp3['"]` at the front of
`s` (greedy body, then the literal suffix, then a closing quote).  The
greedy run of non-quote characters forces the split: the only way the
backtracking search succeeds is with the `.mp3` at the end of the maximal
non-quote run and a quote immediately after it.  Returns the matched body
(including `.mp3`). -/
def mp3Body (s : Str) : Option Str :=
  let run := s.takeWhile (fun c => !(isQuote c))
  let rest := s.drop run.length
  if run.length ≥ 5 ∧ run.drop (run.length - 4) = '.' :: 'm' :: 'p' :: '3' :: []
     ∧ (match rest with | c :: _ => isQuote c | [] => false) = true
  then some run
  else none

/-- Match the pattern `href=['"](https?://[^'"]+\.mp3)['"]` at the front of
`s`, returning the captured group (kelly_to_anki.py line 70).  The optional
`s` of `https?` is tried greedily, as Python's engine does. -/
def matchMp3Href (s : Str) : Option Str :=
  if strPrefix ('h' :: 'r' :: 'e' :: 'f' :: '=' :: []) s then
    match s.drop 5 with
    | q :: rest =>
      if isQuote q then
        if strPrefix ('h' :: 't' :: 't' :: 'p' :: 's' :: ':' :: '/' :: '/' :: []) rest then
          (mp3Body (rest.drop 8)).map
            (fun run => 'h' :: 't' :: 't' :: 'p' :: 's' :: ':' :: '/' :: '/' :: run)
        else if strPrefix ('h' :: 't' :: 't' :: 'p' :: ':' :: '/' :: '/' :: []) rest then
          (mp3Body (rest.drop 7)).map
            (fun run => 'h' :: 't' :: 't' :: 'p' :: ':' :: '/' :: '/' :: run)
        else none
      else none
    | [] => none
  else none

/-- `extract_mp3_url` (kelly_to_anki.py lines 66-71): first mp3 URL found
in the fragment via `re.search`, scanning left to right. -/
def extract_mp3_url : Str → Option Str
  | [] => none
  | c :: rest =>
    match matchMp3Href (c :: rest) with
    | some u => some u
    | none => extract_mp3_url rest

/-- Index of the first occurrence of `pat` in `s` (the `.*?</a>` part of the
anchor pattern: the lazy `.*?` stops at the first `</a>`). -/
def findSub (pat : Str) : Str → Option Nat
  | [] => if pat.isEmpty then some 0 else none
  | c :: rest =>
    if strPrefix pat (c :: rest) then some 0
    else (findSub pat rest).map (fun n => n + 1)

/-- Match `href=["']U["'][^>]*>.*?</a>` (DOTALL) at the front of `t`,
returning the number of characters consumed.  The greedy `[^>]*` followed by
the literal `>` is forced onto the maximal run of non-`>` characters. -/
def matchHrefTail (U : Str) (t : Str) : Option Nat :=
  if strPrefix ('h' :: 'r' :: 'e' :: 'f' :: '=' :: []) t then
    match t.drop 5 with
    | q :: t2 =>
      if isQuote q ∧ strPrefix U t2 then
        match t2.drop U.length with
        | q2 :: t4 =>
          if isQuote q2 then
            let run := t4.takeWhile (fun c => c ≠ '>')
            match t4.drop run.length with
            | '>' :: t6 =>
              (findSub ('<' :: '/' :: 'a' :: '>' :: []) t6).map
                (fun m => 5 + 1 + U.length + 1 + run.length + 1 + m + 4)
            | _ => none
          else none
        | [] => none
      else none
    | [] => none
  else none

/-- Backtracking over the greedy `[^>]+` of the anchor pattern: try the
candidate lengths `k, k-1, ..., 1` (Python tries the longest first) and
return the total number of characters of `tail` consumed on success. -/
def anchorInner (U : Str) (tail : Str) : Nat → Option Nat
  | 0 => none
  | k + 1 =>
    match matchHrefTail U (tail.drop (k + 1)) with
    | some m => some (k + 1 + m)
    | none => anchorInner U tail k

/-- Match the full anchor pattern
`<a[^>]+href=["']U["'][^>]*>.*?</a>` (kelly_to_anki.py line 121, with
`re.escape` making `U` literal) at the front of `s`; returns the length of
the match. -/
def matchAnchorAt (U : Str) (s : Str) : Option Nat :=
  match s with
  | '<' :: 'a' :: tail =>
    (anchorInner U tail ((tail.takeWhile (fun c => c ≠ '>')).length)).map
      (fun n => 2 + n)
  | _ => none

/-- The canonical sound marker `[sound:<name>]`. -/
def soundMarker (name : Str) : Str :=
  '[' :: 's' :: 'o' :: 'u' :: 'n' :: 'd' :: ':' :: (name ++ ']' :: [])

/-- The marker prefix `[sound:` checked by `'[sound:' in def_line`. -/
def soundMarkerPrefix : Str :=
  '[' :: 's' :: 'o' :: 'u' :: 'n' :: 'd' :: ':' :: []

/-- Fuelled worker for `anchorSub`: scan left to right; replace each
non-overlapping match of the anchor pattern by the sound marker and resume
after the match, as `re.sub` does.  Every match consumes at least two
characters, so fuel equal to the string length suffices. -/
def anchorSubAux (U name : Str) : Nat → Str → Str
  | 0, s => s
  | _ + 1, [] => []
  | fuel + 1, c :: rest =>
    match matchAnchorAt U (c :: rest) with
    | some n => soundMarker name ++ anchorSubAux U name fuel ((c :: rest).drop n)
    | none => c :: anchorSubAux U name fuel rest

/-- `re.sub(pattern, '[sound:<name>]', html, flags=re.DOTALL)` for the
anchor pattern around the escaped URL `U` (kelly_to_anki.py lines 121-127). -/
def anchorSub (U name s : Str) : Str :=
  anchorSubAux U name s.length s

/-- One external call performed by the pipeline. -/
inductive Event where
  | folkets (q : Str)
  | trans (q : Str)
  | download (url : Str)
  | tts (text : Str)
deriving DecidableEq

/-- The external services, as oracles.
`folkets q` is the result of `get_folkets_entry q` (kelly_to_anki.py lines
37-64): `none` models an exception in `fetch_html` or a document with no
paragraph elements, `some h` the concatenated paragraph fragment.
`translate q` is `translate_text q`: `none` models an exception or a
non-string result, `some t` the returned string.
`download url` tells whether the HTTP GET of `url` succeeds. -/
structure Env where
  folkets : Str → Option Str
  translate : Str → Option Str
  download : Str → Bool

/-- The audio directory's contents: the set of file paths present. -/
structure FS where
  files : List Str
deriving DecidableEq

/-- `os.path.exists`. -/
def FS.mem (fs : FS) (p : Str) : Bool := fs.files.contains p

/-- Creating a file. -/
def FS.add (fs : FS) (p : Str) : FS := ⟨p :: fs.files⟩

/-- `AUDIO_DIR = 'media'` (kelly_to_anki.py line 25). -/
def AUDIO_DIR : Str := "media".data

/-- Result of `process_word`: the returned pair, plus the file-system state
and the log of external calls. -/
structure PW where
  definition : Option Str
  sound : Option Str
  fs : FS
  events : List Event
deriving DecidableEq

/-- `display_text = word.strip()` (kelly_to_anki.py line 82). -/
def displayOf (word : Str) : Str := pyStrip word

/-- `query_text = display_text.split('(')[0].strip()` (line 83). -/
def queryOf (word : Str) : Str :=
  pyStrip ((displayOf word).takeWhile (fun c => c ≠ '('))

/-- `re.sub(r'[^A-Za-z0-9_-]', '_', query_text)` (kelly_to_anki.py line
131): keep ASCII alphanumerics, '-' and '_', replace every other character
with '_'. -/
def sanitizeKelly (s : Str) : Str :=
  s.map (fun c =>
    if ('A' ≤ c && c ≤ 'Z') || ('a' ≤ c && c ≤ 'z') || ('0' ≤ c && c ≤ '9')
       || c = '_' || c = '-'
    then c else '_')

/-- The TTS branch of step 4 (kelly_to_anki.py lines 131-136): derive the
filename from the query text, synthesize unless the file already exists. -/
def ttsSynth (fs : FS) (evs : List Event) (query_text html : Str) : PW :=
  let name := sanitizeKelly query_text ++ ".mp3".data
  let localPath := joinPath AUDIO_DIR name
  if fs.mem localPath then ⟨some html, some name, fs, evs⟩
  else ⟨some html, some name, fs.add localPath, evs ++ (Event.tts query_text) :: []⟩

/-- Step 4 of `process_word` (kelly_to_anki.py lines 129-136): if no sound
file name was obtained (`if not sound_filename:` — `None` or the empty
string are both falsy), run the TTS branch, else return as is. -/
def ttsStep (fs : FS) (evs : List Event) (query_text html : Str)
    (sound : Option Str) : PW :=
  match sound with
  | some s =>
    if s = [] then ttsSynth fs evs query_text html
    else ⟨some html, some s, fs, evs⟩
  | none => ttsSynth fs evs query_text html

/-- Steps 3-4 of `process_word` (kelly_to_anki.py lines 104-136): extract a
candidate mp3 URL; if present, derive the local name as the URL's basename,
download unless the file exists, and on success substitute the anchor markup
by the sound marker; on download failure the candidate is dropped
(`mp3_url = None`) and the TTS step runs on the unchanged content. -/
def audioPhase (env : Env) (fs : FS) (evs : List Event)
    (query_text html : Str) : PW :=
  match extract_mp3_url html with
  | none => ttsStep fs evs query_text html none
  | some url =>
    let name := basename url
    let localPath := joinPath AUDIO_DIR name
    if fs.mem localPath then
      ttsStep fs evs query_text (anchorSub url name html) (some name)
    else if env.download url then
      ttsStep (fs.add localPath) (evs ++ (Event.download url) :: []) query_text
        (anchorSub url name html) (some name)
    else
      ttsStep fs (evs ++ (Event.download url) :: []) query_text html none

/-- Step 2 of `process_word` (kelly_to_anki.py lines 94-102): fallback to
the translation service.  An exception or non-string result
(`env.translate = none`) and an empty translation both yield
`(None, None)`. -/
def fallbackStep (env : Env) (fs : FS) (evs : List Event)
    (query_text : Str) : PW :=
  match env.translate query_text with
  | none => ⟨none, none, fs, evs ++ (Event.trans query_text) :: []⟩
  | some t =>
    if t = [] then ⟨none, none, fs, evs ++ (Event.trans query_text) :: []⟩
    else audioPhase env fs (evs ++ (Event.trans query_text) :: []) query_text t

/-- `process_word` (kelly_to_anki.py lines 73-138). -/
def process_word (env : Env) (fs : FS) (word : Str) : PW :=
  if displayOf word = [] then ⟨none, none, fs, []⟩
  else
    let q := pyLower (queryOf word)
    match env.folkets q with
    | none => fallbackStep env fs ((Event.folkets q) :: []) (queryOf word)
    | some h =>
      if h = [] then fallbackStep env fs ((Event.folkets q) :: []) (queryOf word)
      else audioPhase env fs ((Event.folkets q) :: []) (queryOf word) h

/-- An input row of the Kelly spreadsheet after the pandas preprocessing of
`main` (kelly_to_anki.py lines 142-149): the Swedish item and its CEFR
level (missing levels already normalized to the empty string). -/
structure Row where
  word : Str
  tag : Str
deriving DecidableEq

/-- Lines 166-171 of kelly_to_anki.py: make the definition single-line and
append the sound tag when the marker is not already embedded
(`if sound and '[sound:' not in def_line`). -/
def assembleDefLine (d : Str) (sound : Option Str) : Str :=
  let def_line := replaceNl d
  match sound with
  | none => def_line
  | some s =>
    if s ≠ [] ∧ strContains def_line soundMarkerPrefix = false
    then def_line ++ ' ' :: soundMarker s
    else def_line

/-- Result of one iteration of the Kelly driver loop: new file-system
state, events, and the record (word, definition line, tags field) when one
is written. -/
structure RowOut where
  fs : FS
  events : List Event
  out : Option (Str × Str × Str)
deriving DecidableEq

/-- One iteration of the loop in `main` (kelly_to_anki.py lines 159-176):
strip the word and tag, call `process_word`, skip when the definition is
falsy (`if not definition: continue`), otherwise assemble the record. -/
def processRow (env : Env) (fs : FS) (row : Row) : RowOut :=
  let word := pyStrip row.word
  let tag := pyStrip row.tag
  let r := process_word env fs word
  match r.definition with
  | none => ⟨r.fs, r.events, none⟩
  | some d =>
    if d = [] then ⟨r.fs, r.events, none⟩
    else ⟨r.fs, r.events, some (word, assembleDefLine d r.sound, tag)⟩

/-- The tab-separated data line `f"{word}\t{def_line}\t{tags_field}\n"`
without its final newline. -/
def recLine : Str × Str × Str → Str :=
  fun r => r.1 ++ '\t' :: r.2.1 ++ '\t' :: r.2.2

/-- The whole driver loop of the Kelly `main`: final file-system state, all
events, and the list of data lines written. -/
def kellyRun (env : Env) (fs : FS) : List Row → FS × List Event × List Str
  | [] => (fs, [], [])
  | row :: rest =>
    let o := processRow env fs row
    let rec2 := kellyRun env o.fs rest
    (rec2.1, o.events ++ rec2.2.1,
      (match o.out with | some r => (recLine r) :: [] | none => []) ++ rec2.2.2)

/-- The character stream written to the output file by the Kelly `main`
loop (one `out.write` per record, each ending in a newline). -/
def kellyWrites (env : Env) (fs : FS) : List Row → Str
  | [] => []
  | row :: rest =>
    let o := processRow env fs row
    (match o.out with | some r => recLine r ++ '\n' :: [] | none => []) ++
      kellyWrites env o.fs rest

/-- The full character stream written to `kelly_anki_import.txt`
(kelly_to_anki.py lines 151-176): the four header writes followed by the
loop's writes. -/
def kellyStream (env : Env) (fs : FS) (rows : List Row) : Str :=
  "#separator:Tab\n".data ++ "#columns:Word\tDefinition\tTags\n".data ++
  "#notetype:Basic\n".data ++ "#deck:KellyList\n".data ++
  kellyWrites env fs rows

/-- The four header directive lines of the Kelly output, without newlines. -/
def kellyHeaderLines : List Str :=
  ("#separator:Tab".data) :: ("#columns:Word\tDefinition\tTags".data) ::
  ("#notetype:Basic".data) :: ("#deck:KellyList".data) :: []

/-- Join lines with a newline after each one. -/
def joinNl (ls : List Str) : Str :=
  ls.foldr (fun l acc => l ++ '\n' :: acc) []

/-- Split a stream on newline characters (inverse view of `joinNl` up to
the trailing fragment). -/
def linesOf : Str → List Str
  | [] => [] :: []
  | c :: rest =>
    if c = '\n' then [] :: linesOf rest
    else
      match linesOf rest with
      | l :: ls => (c :: l) :: ls
      | [] => (c :: []) :: []

/-! ### The Riksdagen glossary pipeline (riksdagen_law_glossary_anki.py) -/

/-- `MEDIA_DIR = 'media'` (riksdagen_law_glossary_anki.py line 15). -/
def MEDIA_DIR : Str := "media".data

/-- `sanitize_filename` (riksdagen_law_glossary_anki.py lines 72-76):
keep characters that are alphanumeric (Python `str.isalnum`) or in `-_`,
replace every other character with '_'. -/
def sanitize_filename (text : Str) : Str :=
  text.map (fun c => if pyIsAlnum c || c = '-' || c = '_' then c else '_')

/-- The English mapping scraped by `scrape_english_mapping`: lowercase
Swedish key to (English term, English definition). -/
abbrev EngMap := List (Str × Str × Str)

/-- `eng_map.get(term.lower(), ("", ""))` (line 101). -/
def engEntry (emap : EngMap) (term : Str) : Str × Str :=
  match emap.lookup (pyLower term) with
  | some e => e
  | none => ([], [])

/-- Lines 100-115 of riksdagen_law_glossary_anki.py: the data line
`f"{front}\t{back}"` for one scraped (term, Swedish definition) pair. -/
def riksRecord (emap : EngMap) (term sw_def : Str) : Str :=
  let filename := sanitize_filename term ++ ".mp3".data
  let eng_entry := engEntry emap term
  let eng_html :=
    if eng_entry.1 ≠ [] then
      "<div style=\"font-size:1.2em; font-weight:bold;\">".data ++ eng_entry.1 ++
      "</div>".data ++ "<div>".data ++ eng_entry.2 ++ "</div>".data
    else []
  let back := sw_def ++ "<br><br>".data ++ eng_html
  let front := term ++ ' ' :: soundMarker filename
  front ++ '\t' :: back

/-- One iteration of the Riksdagen loop (lines 89-117): ensure the TTS
audio file exists (synthesize only when missing), then write the record. -/
def riksProcess (fs : FS) (emap : EngMap) (term sw_def : Str) :
    FS × List Event × Str :=
  let filename := sanitize_filename term ++ ".mp3".data
  let localPath := joinPath MEDIA_DIR filename
  let step : FS × List Event :=
    if fs.mem localPath then (fs, []) else (fs.add localPath, (Event.tts term) :: [])
  (step.1, step.2, riksRecord emap term sw_def)

/-- The whole Riksdagen driver loop over the scraped (term, definition)
pairs: final file-system state, events, and data lines. -/
def riksRun (fs : FS) (emap : EngMap) : List (Str × Str) → FS × List Event × List Str
  | [] => (fs, [], [])
  | (term, sw_def) :: rest =>
    let o := riksProcess fs emap term sw_def
    let rec2 := riksRun o.1 emap rest
    (rec2.1, o.2.1 ++ rec2.2.1, o.2.2 :: rec2.2.2)

/-- The character stream written by the Riksdagen loop. -/
def riksWrites (fs : FS) (emap : EngMap) : List (Str × Str) → Str
  | [] => []
  | (term, sw_def) :: rest =>
    let o := riksProcess fs emap term sw_def
    o.2.2 ++ '\n' :: riksWrites o.1 emap rest

/-- The full character stream written to `riksdagen_glossary_anki.txt`
(riksdagen_law_glossary_anki.py lines 82-117).  Note the fourth header
write is `f"#deck:{DECK_NAME}\n\n"` — it ends in TWO newlines. -/
def riksStream (fs : FS) (emap : EngMap) (entries : List (Str × Str)) : Str :=
  "#separator:Tab\n".data ++ "#columns:Swedish\tDefinition\n".data ++
  "#notetype:Basic\n".data ++ "#deck:LawGlossary\n\n".data ++
  riksWrites fs emap entries

/-- The four header directive lines of the Riksdagen output. -/
def riksHeaderLines : List Str :=
  ("#separator:Tab".data) :: ("#columns:Swedish\tDefinition".data) ::
  ("#notetype:Basic".data) :: ("#deck:LawGlossary".data) :: []

/-- Subset order on file-system states. -/
def FSsub (a b : FS) : Prop := ∀ p, a.mem p = true → b.mem p = true

/-- A network-or-synthesis event (as opposed to a lookup event). -/
def isNet : Event → Bool
  | Event.download _ => true
  | Event.tts _ => true
  | _ => false

/-- Python truthiness of an optional string: usable content is a string
that is present and non-empty (`if not entry_html:`). -/
def usable : Option Str → Bool
  | none => false
  | some s => !(s.isEmpty)

/-- Environment in which every lookup fails. -/
def envFail : Env := ⟨fun _ => none, fun _ => none, fun _ => false⟩

/-- A fixed dictionary fragment with a downloadable mp3 link, used by the
concrete witness environments. -/
def fragW : Str :=
  "<p>ord <a href=\"https://lexin.nada.kth.se/sound/abc123.mp3\">ljud</a></p>".data

/-- The mp3 URL inside `fragW`. -/
def urlW : Str := "https://lexin.nada.kth.se/sound/abc123.mp3".data

/-- Environment in which the dictionary always returns a fixed fragment
with a downloadable mp3 link, and downloads succeed. -/
def envHit : Env := ⟨fun _ => some fragW, fun _ => none, fun _ => true⟩

/-- Environment in which the dictionary misses and translation returns a
fixed non-empty text. -/
def envTrans : Env :=
  ⟨fun _ => none, fun q => some ('T' :: q), fun _ => false⟩

/-- Like `envHit` but every download fails. -/
def envHitNoDl : Env := ⟨fun _ => some fragW, fun _ => none, fun _ => false⟩

/-- The empty audio directory. -/
def fs0 : FS := ⟨[]⟩

/-- Environment in which the dictionary returns a fixed fragment with no
audio link, and downloads succeed. -/
def envPlain : Env :=
  ⟨fun _ => some ("<p>bara text</p>".data), fun _ => none, fun _ => true⟩

/-! ### Basic lemmas about the string primitives -/

theorem strPrefix_self_append (p b : Str) : strPrefix p (p ++ b) = true := by
  induction p with
  | nil => rfl
  | cons c cs ih => simp [strPrefix, ih]

theorem strContains_nil_pat (s : Str) : strContains s [] = true := by
  induction s with
  | nil => rfl
  | cons c cs ih => simp [strContains, strPrefix, ih]

theorem strContains_of_middle (a pat b : Str) :
    strContains (a ++ (pat ++ b)) pat = true := by
  induction a with
  | nil =>
    cases pat with
    | nil => simpa using strContains_nil_pat b
    | cons c cs =>
      simp only [List.nil_append, List.cons_append, strContains]
      have := strPrefix_self_append (c :: cs) b
      simp only [List.cons_append] at this
      simp [this]
  | cons d ds ih =>
    simp [strContains, ih]

theorem replaceNl_no_newline (d : Str) : '\n' ∉ replaceNl d := by
  induction d with
  | nil => simp [replaceNl]
  | cons c cs ih =>
    by_cases h : c = '\n'
    · simp [replaceNl, h, ih]
    · simp [replaceNl, h, ih]
      intro hc
      exact h hc.symm

theorem dropWhile_head_false {p : Char → Bool} {l : Str} {c : Char} {rest : Str}
    (h : l.dropWhile p = c :: rest) : p c = false := by
  induction l with
  | nil => simp [List.dropWhile] at h
  | cons a l' ih =>
    by_cases ha : p a
    · rw [List.dropWhile_cons_of_pos ha] at h
      exact ih h
    · rw [List.dropWhile_cons_of_neg ha] at h
      cases h
      simpa using ha

theorem dropWhile_idem (p : Char → Bool) (l : Str) :
    (l.dropWhile p).dropWhile p = l.dropWhile p := by
  cases h : l.dropWhile p with
  | nil => rfl
  | cons c rest =>
    have := dropWhile_head_false h
    simp [List.dropWhile, this]

theorem pyStrip_nil : pyStrip [] = [] := rfl

theorem pyStrip_idem (s : Str) : pyStrip (pyStrip s) = pyStrip s := by
  unfold pyStrip
  cases hu : (((s.dropWhile pyIsSpace).reverse).dropWhile pyIsSpace) with
  | nil => simp [hu]
  | cons c cs =>
    have hsplit := List.takeWhile_append_dropWhile
      (p := pyIsSpace) (l := (s.dropWhile pyIsSpace).reverse)
    rw [hu] at hsplit
    -- `(c :: cs).reverse` is a prefix of `s.dropWhile pyIsSpace`
    have hpre : (c :: cs).reverse ++
        (((s.dropWhile pyIsSpace).reverse).takeWhile pyIsSpace).reverse =
        s.dropWhile pyIsSpace := by
      have := congrArg List.reverse hsplit
      simpa [List.reverse_append] using this
    have hdrop1 : ((c :: cs).reverse).dropWhile pyIsSpace = (c :: cs).reverse := by
      cases hr : (c :: cs).reverse with
      | nil => simp at hr
      | cons d ds =>
        have hd : pyIsSpace d = false := by
          rw [hr] at hpre
          exact dropWhile_head_false hpre.symm
        simp [List.dropWhile, hd]
    have hdrop2 : (c :: cs).dropWhile pyIsSpace = c :: cs := by
      have hc : pyIsSpace c = false := dropWhile_head_false hu
      simp [List.dropWhile, hc]
    rw [hdrop1, List.reverse_reverse, hdrop2]

/-! ### Generic facts about the pipeline -/

/-- `anchorSub` never turns a non-empty fragment into the empty string. -/
theorem anchorSubAux_ne_nil (U name : Str) (fuel : Nat) (c : Char) (rest : Str) :
    anchorSubAux U name fuel (c :: rest) ≠ [] := by
  cases fuel with
  | zero => simp [anchorSubAux]
  | succ n =>
    simp only [anchorSubAux]
    cases matchAnchorAt U (c :: rest) with
    | none => simp
    | some k => simp [soundMarker]

theorem anchorSub_ne_nil (U name : Str) {s : Str} (h : s ≠ []) :
    anchorSub U name s ≠ [] := by
  cases s with
  | nil => exact absurd rfl h
  | cons c rest => exact anchorSubAux_ne_nil U name _ c rest

theorem FSsub.refl (a : FS) : FSsub a a := fun _ h => h

theorem FSsub.trans {a b c : FS} (h1 : FSsub a b) (h2 : FSsub b c) : FSsub a c :=
  fun p h => h2 p (h1 p h)

theorem FS.mem_add (fs : FS) (p : Str) : (fs.add p).mem p = true := by
  simp [FS.add, FS.mem, List.contains_cons]

theorem FSsub.add (fs : FS) (p : Str) : FSsub fs (fs.add p) := by
  intro q h
  simp only [FS.add, FS.mem, List.contains_cons] at *
  rw [h]
  simp

theorem ttsSynth_fs_sub (fs : FS) (evs : List Event) (q h : Str) :
    FSsub fs (ttsSynth fs evs q h).fs := by
  unfold ttsSynth
  by_cases hm : fs.mem (joinPath AUDIO_DIR (sanitizeKelly q ++ ".mp3".data)) = true
  · simp [hm]; exact FSsub.refl fs
  · simp only [Bool.not_eq_true] at hm
    simp [hm]
    exact FSsub.add _ _

theorem ttsStep_fs_sub (fs : FS) (evs : List Event) (q h : Str) (sound : Option Str) :
    FSsub fs (ttsStep fs evs q h sound).fs := by
  unfold ttsStep
  cases sound with
  | none => exact ttsSynth_fs_sub fs evs q h
  | some s =>
    by_cases hs : s = []
    · simp [hs]; exact ttsSynth_fs_sub fs evs q h
    · simp [hs]; exact FSsub.refl fs

theorem audioPhase_fs_sub (env : Env) (fs : FS) (evs : List Event) (q h : Str) :
    FSsub fs (audioPhase env fs evs q h).fs := by
  unfold audioPhase
  cases extract_mp3_url h with
  | none => exact ttsStep_fs_sub fs evs q h none
  | some url =>
    simp only
    by_cases hm : fs.mem (joinPath AUDIO_DIR (basename url)) = true
    · simp [hm]; exact ttsStep_fs_sub fs evs q _ _
    · simp only [Bool.not_eq_true] at hm
      by_cases hd : env.download url = true
      · simp [hm, hd]
        exact FSsub.trans (FSsub.add _ _) (ttsStep_fs_sub _ _ q _ _)
      · simp only [Bool.not_eq_true] at hd
        simp [hm, hd]
        exact ttsStep_fs_sub fs _ q h none

theorem fallbackStep_fs_sub (env : Env) (fs : FS) (evs : List Event) (q : Str) :
    FSsub fs (fallbackStep env fs evs q).fs := by
  unfold fallbackStep
  cases env.translate q with
  | none => exact FSsub.refl fs
  | some t =>
    by_cases ht : t = []
    · simp [ht]; exact FSsub.refl fs
    · simp [ht]; exact audioPhase_fs_sub env fs _ q t

theorem process_word_fs_sub (env : Env) (fs : FS) (word : Str) :
    FSsub fs (process_word env fs word).fs := by
  unfold process_word
  by_cases hd : displayOf word = []
  · simp [hd]; exact FSsub.refl fs
  · simp only [hd, if_false]
    cases env.folkets (pyLower (queryOf word)) with
    | none => exact fallbackStep_fs_sub env fs _ _
    | some h =>
      by_cases hh : h = []
      · simp [hh]; exact fallbackStep_fs_sub env fs _ _
      · simp [hh]; exact audioPhase_fs_sub env fs _ _ h

theorem ttsSynth_events (fs : FS) (evs : List Event) (q h : Str) :
    ∃ extra, (ttsSynth fs evs q h).events = evs ++ extra ∧
      ∀ e ∈ extra, isNet e = true := by
  unfold ttsSynth
  by_cases hm : fs.mem (joinPath AUDIO_DIR (sanitizeKelly q ++ ".mp3".data)) = true
  · exact ⟨[], by simp [hm], by simp⟩
  · simp only [Bool.not_eq_true] at hm
    exact ⟨(Event.tts q) :: [], by simp [hm], by simp [isNet]⟩

theorem ttsStep_events (fs : FS) (evs : List Event) (q h : Str) (sound : Option Str) :
    ∃ extra, (ttsStep fs evs q h sound).events = evs ++ extra ∧
      ∀ e ∈ extra, isNet e = true := by
  unfold ttsStep
  cases sound with
  | none => exact ttsSynth_events fs evs q h
  | some s =>
    dsimp only
    by_cases hs : s = []
    · rw [if_pos hs]
      exact ttsSynth_events fs evs q h
    · exact ⟨[], by simp [hs], by simp⟩

theorem audioPhase_events (env : Env) (fs : FS) (evs : List Event) (q h : Str) :
    ∃ extra, (audioPhase env fs evs q h).events = evs ++ extra ∧
      ∀ e ∈ extra, isNet e = true := by
  unfold audioPhase
  cases extract_mp3_url h with
  | none => exact ttsStep_events fs evs q h none
  | some url =>
    simp only
    by_cases hm : fs.mem (joinPath AUDIO_DIR (basename url)) = true
    · rw [if_pos hm]
      exact ttsStep_events fs evs q _ _
    · simp only [Bool.not_eq_true] at hm
      rw [if_neg (by simp [hm])]
      by_cases hd : env.download url = true
      · rw [if_pos hd]
        obtain ⟨extra, he, hn⟩ := ttsStep_events (fs.add _) (evs ++ (Event.download url) :: []) q
          (anchorSub url (basename url) h) (some (basename url))
        refine ⟨(Event.download url) :: extra, by simpa using he, ?_⟩
        intro e hme
        rcases List.mem_cons.mp hme with h1 | h2
        · simp [h1, isNet]
        · exact hn e h2
      · simp only [Bool.not_eq_true] at hd
        rw [if_neg (by simp [hd])]
        obtain ⟨extra, he, hn⟩ := ttsStep_events fs (evs ++ (Event.download url) :: []) q h none
        refine ⟨(Event.download url) :: extra, by simpa using he, ?_⟩
        intro e hme
        rcases List.mem_cons.mp hme with h1 | h2
        · simp [h1, isNet]
        · exact hn e h2

theorem fallbackStep_events (env : Env) (fs : FS) (evs : List Event) (q : Str) :
    ∃ extra, (fallbackStep env fs evs q).events = evs ++ (Event.trans q) :: extra ∧
      ∀ e ∈ extra, isNet e = true := by
  unfold fallbackStep
  cases env.translate q with
  | none => exact ⟨[], by simp, by simp⟩
  | some t =>
    dsimp only
    by_cases ht : t = []
    · rw [if_pos ht]
      exact ⟨[], by simp, by simp⟩
    · rw [if_neg ht]
      obtain ⟨extra, he, hn⟩ := audioPhase_events env fs (evs ++ (Event.trans q) :: []) q t
      exact ⟨extra, by simpa using he, hn⟩

/-- Stripping the word before `process_word` changes nothing: the function
itself strips first (the Kelly `main` passes an already-stripped word). -/
theorem displayOf_strip (w : Str) : displayOf (pyStrip w) = displayOf w := by
  unfold displayOf
  exact pyStrip_idem w

theorem queryOf_strip (w : Str) : queryOf (pyStrip w) = queryOf w := by
  unfold queryOf
  rw [displayOf_strip]

theorem process_word_strip (env : Env) (fs : FS) (w : Str) :
    process_word env fs (pyStrip w) = process_word env fs w := by
  unfold process_word
  rw [displayOf_strip, queryOf_strip]

/-- A non-empty query string forces a non-empty display string. -/
theorem displayOf_ne_nil_of_queryOf {w : Str} (h : queryOf w ≠ []) :
    displayOf w ≠ [] := by
  intro hd
  apply h
  unfold queryOf
  rw [hd]
  rfl

/-- Unfolding of `process_word` when the dictionary lookup has usable
content (step 2 is skipped). -/
theorem process_word_primary (env : Env) (fs : FS) (word h : Str)
    (hd : displayOf word ≠ []) (hf : env.folkets (pyLower (queryOf word)) = some h)
    (hh : h ≠ []) :
    process_word env fs word =
      audioPhase env fs ((Event.folkets (pyLower (queryOf word))) :: [])
        (queryOf word) h := by
  unfold process_word
  rw [if_neg hd]
  dsimp only
  rw [hf]
  dsimp only
  rw [if_neg hh]

/-- Unfolding of `process_word` when the dictionary lookup has no usable
content (`if not entry_html:` — step 2 runs). -/
theorem process_word_noPrimary (env : Env) (fs : FS) (word : Str)
    (hd : displayOf word ≠ [])
    (hf : usable (env.folkets (pyLower (queryOf word))) = false) :
    process_word env fs word =
      fallbackStep env fs ((Event.folkets (pyLower (queryOf word))) :: [])
        (queryOf word) := by
  unfold process_word
  rw [if_neg hd]
  dsimp only
  cases hfq : env.folkets (pyLower (queryOf word)) with
  | none => rfl
  | some h =>
    rw [hfq] at hf
    simp only [usable, Bool.not_eq_false', List.isEmpty_iff] at hf
    dsimp only
    rw [if_pos hf]

/-! ### Claim C1 -/

/-- **C1**: the Fallback Lookup (translation) is attempted only when the
Primary Lookup (dictionary fetch) returns no usable content — when the
Primary succeeds no translation call happens at all, so at most one source
contributes the record's content; when both Primary and Fallback yield no
content, `process_word` returns no definition and the driver writes no
record, hence the number of output data lines is at most the number of
input rows. -/
theorem claim1_lookup_chain (env : Env) :
    (∀ fs word h, displayOf word ≠ [] →
        env.folkets (pyLower (queryOf word)) = some h → h ≠ [] →
        ∀ q', Event.trans q' ∉ (process_word env fs word).events) ∧
    (∀ fs word, usable (env.folkets (pyLower (queryOf word))) = false →
        usable (env.translate (queryOf word)) = false →
        (process_word env fs word).definition = none) ∧
    (∀ fs rows, ((kellyRun env fs rows).2.2).length ≤ rows.length) := by
  refine ⟨?_, ?_, ?_⟩
  · intro fs word h hd hf hh q' hmem
    rw [process_word_primary env fs word h hd hf hh] at hmem
    obtain ⟨extra, he, hn⟩ := audioPhase_events env fs _ (queryOf word) h
    rw [he] at hmem
    rcases List.mem_append.mp hmem with h1 | h2
    · simp at h1
    · have := hn _ h2
      simp [isNet] at this
  · intro fs word hf ht
    by_cases hd : displayOf word = []
    · unfold process_word
      rw [if_pos hd]
    · rw [process_word_noPrimary env fs word hd hf]
      unfold fallbackStep
      cases htr : env.translate (queryOf word) with
      | none => rfl
      | some t =>
        rw [htr] at ht
        simp only [usable, Bool.not_eq_false', List.isEmpty_iff] at ht
        dsimp only
        rw [if_pos ht]
  · intro fs rows
    induction rows generalizing fs with
    | nil => simp [kellyRun]
    | cons row rest ih =>
      simp only [kellyRun]
      cases (processRow env fs row).out with
      | none =>
        simpa using Nat.le_succ_of_le (ih _)
      | some r =>
        simpa using ih _

/-- Witness for C1 at concrete inputs. -/
theorem claim1_lookup_chain_witness :
    (Event.trans ("hej".data) ∉ (process_word envHit fs0 ("hej".data)).events) ∧
    ((process_word envFail fs0 ("hej".data)).definition = none) ∧
    ((kellyRun envFail fs0 (⟨"hej".data, "A1".data⟩ :: [])).2.2).length ≤ 1 := by
  refine ⟨?_, ?_, ?_⟩
  · exact (claim1_lookup_chain envHit).1 fs0 ("hej".data) _ (by decide) rfl
      (by decide) ("hej".data)
  · exact (claim1_lookup_chain envFail).2.1 fs0 ("hej".data) (by decide) (by decide)
  · exact (claim1_lookup_chain envFail).2.2 fs0 (⟨"hej".data, "A1".data⟩ :: [])

/-! ### Claim C2 -/

/-- **C2**: in the Audio Resolver, when the looked-up content contains an
mp3 URL, the local filename is the URL's base name; the file is downloaded
only when not already present (no download event when the file exists, a
download event when it is absent); on success (or when the file already
exists) the anchor markup around the URL is replaced in the content by the
canonical marker via `anchorSub`; on download failure the candidate is
discarded and the resolver falls through to speech synthesis, leaving the
content untouched. -/
theorem claim2_audio_resolver (env : Env) (fs : FS) (word h url : Str)
    (hd : displayOf word ≠ [])
    (hf : env.folkets (pyLower (queryOf word)) = some h) (hh : h ≠ [])
    (hx : extract_mp3_url h = some url) (hb : basename url ≠ []) :
    (fs.mem (joinPath AUDIO_DIR (basename url)) = true →
      process_word env fs word =
        ⟨some (anchorSub url (basename url) h), some (basename url), fs,
         (Event.folkets (pyLower (queryOf word))) :: []⟩) ∧
    (fs.mem (joinPath AUDIO_DIR (basename url)) = false →
      env.download url = true →
      process_word env fs word =
        ⟨some (anchorSub url (basename url) h), some (basename url),
         fs.add (joinPath AUDIO_DIR (basename url)),
         (Event.folkets (pyLower (queryOf word))) :: (Event.download url) :: []⟩) ∧
    (fs.mem (joinPath AUDIO_DIR (basename url)) = false →
      env.download url = false →
      (process_word env fs word).definition = some h ∧
      (process_word env fs word).sound =
        some (sanitizeKelly (queryOf word) ++ ".mp3".data) ∧
      Event.download url ∈ (process_word env fs word).events) := by
  rw [process_word_primary env fs word h hd hf hh]
  unfold audioPhase
  rw [hx]
  dsimp only
  refine ⟨?_, ?_, ?_⟩
  · intro hm
    rw [if_pos hm]
    unfold ttsStep
    dsimp only
    rw [if_neg hb]
  · intro hm hdl
    rw [if_neg (by simp [hm]), if_pos hdl]
    unfold ttsStep
    dsimp only
    rw [if_neg hb]
    rfl
  · intro hm hdl
    rw [if_neg (by simp [hm]), if_neg (by simp [hdl])]
    unfold ttsStep ttsSynth
    dsimp only
    by_cases hms : fs.mem (joinPath AUDIO_DIR (sanitizeKelly (queryOf word) ++ ".mp3".data)) = true
    · rw [if_pos hms]
      exact ⟨rfl, rfl, by simp⟩
    · rw [if_neg hms]
      exact ⟨rfl, rfl, by simp⟩

/-- Witness for C2: in `envHit` over an empty audio directory, the word
"hej" resolves by downloading `abc123.mp3` and substituting the marker. -/
theorem claim2_audio_resolver_witness :
    process_word envHit fs0 ("hej".data) =
      ⟨some (anchorSub urlW (basename urlW) fragW), some (basename urlW),
       fs0.add (joinPath AUDIO_DIR (basename urlW)),
       (Event.folkets (pyLower (queryOf ("hej".data)))) ::
         (Event.download urlW) :: []⟩ :=
  (claim2_audio_resolver envHit fs0 ("hej".data) fragW urlW (by decide) rfl
    (by decide) (by decide) (by decide)).2.1 (by decide) rfl

/-! ### Claim C3 -/

theorem soundMarker_decomp (s : Str) :
    soundMarker s = soundMarkerPrefix ++ (s ++ ']' :: []) := rfl

/-- After row assembly, a non-empty sound filename guarantees the marker
prefix occurs in the definition line. -/
theorem assembleDefLine_contains (d s : Str) (hs : s ≠ []) :
    strContains (assembleDefLine d (some s)) soundMarkerPrefix = true := by
  unfold assembleDefLine
  dsimp only
  by_cases hc : strContains (replaceNl d) soundMarkerPrefix = true
  · rw [if_neg (by simp [hc])]
    exact hc
  · rw [if_pos ⟨hs, by simpa using hc⟩]
    have : replaceNl d ++ ' ' :: soundMarker s =
        (replaceNl d ++ ' ' :: []) ++ (soundMarkerPrefix ++ (s ++ ']' :: [])) := by
      rw [soundMarker_decomp]
      simp
    rw [this]
    exact strContains_of_middle _ _ _

/-- `ttsStep` always returns the given content and a non-empty filename. -/
theorem ttsStep_spec (fs : FS) (evs : List Event) (q h : Str) (sound : Option Str) :
    ∃ s, (ttsStep fs evs q h sound).definition = some h ∧
      (ttsStep fs evs q h sound).sound = some s ∧ s ≠ [] := by
  have hsynth : ∃ s, (ttsSynth fs evs q h).definition = some h ∧
      (ttsSynth fs evs q h).sound = some s ∧ s ≠ [] := by
    unfold ttsSynth
    refine ⟨sanitizeKelly q ++ ".mp3".data, ?_⟩
    by_cases hm : fs.mem (joinPath AUDIO_DIR (sanitizeKelly q ++ ".mp3".data)) = true
    · rw [if_pos hm]
      exact ⟨rfl, rfl, by simp [String.data]⟩
    · rw [if_neg hm]
      exact ⟨rfl, rfl, by simp [String.data]⟩
  unfold ttsStep
  cases sound with
  | none => exact hsynth
  | some s =>
    dsimp only
    by_cases hs : s = []
    · rw [if_pos hs]
      exact hsynth
    · rw [if_neg hs]
      exact ⟨s, rfl, rfl, hs⟩

/-- The audio phase on non-empty content always yields non-empty content
and a non-empty sound filename. -/
theorem audioPhase_spec (env : Env) (fs : FS) (evs : List Event) (q h : Str)
    (hh : h ≠ []) :
    ∃ d s, (audioPhase env fs evs q h).definition = some d ∧ d ≠ [] ∧
      (audioPhase env fs evs q h).sound = some s ∧ s ≠ [] := by
  unfold audioPhase
  cases extract_mp3_url h with
  | none =>
    obtain ⟨s, h1, h2, h3⟩ := ttsStep_spec fs evs q h none
    exact ⟨h, s, h1, hh, h2, h3⟩
  | some url =>
    dsimp only
    by_cases hm : fs.mem (joinPath AUDIO_DIR (basename url)) = true
    · rw [if_pos hm]
      obtain ⟨s, h1, h2, h3⟩ := ttsStep_spec fs evs q
        (anchorSub url (basename url) h) (some (basename url))
      exact ⟨_, s, h1, anchorSub_ne_nil url (basename url) hh, h2, h3⟩
    · rw [if_neg hm]
      by_cases hdl : env.download url = true
      · rw [if_pos hdl]
        obtain ⟨s, h1, h2, h3⟩ := ttsStep_spec (fs.add (joinPath AUDIO_DIR (basename url)))
          (evs ++ (Event.download url) :: []) q
          (anchorSub url (basename url) h) (some (basename url))
        exact ⟨_, s, h1, anchorSub_ne_nil url (basename url) hh, h2, h3⟩
      · rw [if_neg hdl]
        obtain ⟨s, h1, h2, h3⟩ := ttsStep_spec fs (evs ++ (Event.download url) :: []) q h none
        exact ⟨h, s, h1, hh, h2, h3⟩

/-- **C3**: for a term with a non-empty query string and a usable Primary
Lookup, a record is emitted, and its content field contains the
`[sound:` marker if and only if an audio asset was resolved — and one
always is (the sound filename is always set, and the assembly appends the
marker whenever the content does not already carry one). -/
theorem claim3_marker_iff (env : Env) (fs : FS) (word tag h : Str)
    (hq : queryOf word ≠ [])
    (hf : env.folkets (pyLower (queryOf word)) = some h) (hh : h ≠ []) :
    ∃ d s, (process_word env fs word).definition = some d ∧ d ≠ [] ∧
      (process_word env fs word).sound = some s ∧ s ≠ [] ∧
      (processRow env fs ⟨word, tag⟩).out =
        some (pyStrip word, assembleDefLine d (some s), pyStrip tag) ∧
      (strContains (assembleDefLine d (some s)) soundMarkerPrefix = true ↔
        (process_word env fs word).sound ≠ none) := by
  have hd : displayOf word ≠ [] := displayOf_ne_nil_of_queryOf hq
  have hpw := process_word_primary env fs word h hd hf hh
  obtain ⟨d, s, h1, h2, h3, h4⟩ :=
    audioPhase_spec env fs ((Event.folkets (pyLower (queryOf word))) :: [])
      (queryOf word) h hh
  rw [← hpw] at h1 h3
  refine ⟨d, s, h1, h2, h3, h4, ?_, ?_⟩
  · unfold processRow
    dsimp only
    rw [process_word_strip, h1]
    dsimp only
    rw [if_neg h2]
    dsimp only
    rw [h3]
  · constructor
    · intro _
      rw [h3]
      simp
    · intro _
      exact assembleDefLine_contains d s h4

/-- Witness for C3 at a concrete input. -/
theorem claim3_marker_iff_witness :
    ∃ d s, (process_word envHit fs0 ("hej".data)).definition = some d ∧ d ≠ [] ∧
      (process_word envHit fs0 ("hej".data)).sound = some s ∧ s ≠ [] ∧
      (processRow envHit fs0 ⟨"hej".data, "A1".data⟩).out =
        some (pyStrip ("hej".data), assembleDefLine d (some s), pyStrip ("A1".data)) ∧
      (strContains (assembleDefLine d (some s)) soundMarkerPrefix = true ↔
        (process_word envHit fs0 ("hej".data)).sound ≠ none) :=
  claim3_marker_iff envHit fs0 ("hej".data) ("A1".data) fragW (by decide) rfl
    (by decide)

/-! ### Claim C4 -/

/-- **C4, counterexample**: the claim says terms with an empty
query-after-stripping are skipped before any lookup.  The code only checks
the *display* string (`if not display_text`), so the input `"(x)"` — whose
query string is empty — still reaches both lookups (with the empty query). -/
theorem claim4_counterexample :
    (process_word envFail fs0 ("(x)".data)).events =
      (Event.folkets []) :: (Event.trans []) :: [] ∧
    queryOf ("(x)".data) = [] ∧
    displayOf ("(x)".data) ≠ [] := by
  refine ⟨by decide, by decide, by decide⟩

/-- **C4, amended**: a term reaches a lookup only when its *display*
string (not its query string) is non-empty after trimming; terms whose
display string trims to empty are skipped before any lookup (no events at
all). -/
theorem claim4_amended (env : Env) (fs : FS) (word : Str)
    (h : (process_word env fs word).events ≠ []) : displayOf word ≠ [] := by
  intro hd
  apply h
  unfold process_word
  rw [if_pos hd]

/-- Witness for the amended C4. -/
theorem claim4_amended_witness :
    (process_word envFail fs0 ("hej".data)).events ≠ [] ∧
    displayOf ("hej".data) ≠ [] :=
  ⟨by decide, claim4_amended envFail fs0 ("hej".data) (by decide)⟩

/-! ### Claim C5 -/

/-- **C5, counterexample**: the claim says both lookups receive the
lowercased query.  For the input `"Hej"` the translation call receives
`"Hej"` unchanged, which differs from the lowercase query `"hej"` that the
dictionary fetch receives. -/
theorem claim5_counterexample :
    Event.trans ("Hej".data) ∈ (process_word envTrans fs0 ("Hej".data)).events ∧
    Event.folkets ("hej".data) ∈ (process_word envTrans fs0 ("Hej".data)).events ∧
    ("Hej".data : Str) ≠ pyLower (queryOf ("Hej".data)) := by
  refine ⟨by decide, by decide, by decide⟩

/-- **C5, amended**: the dictionary fetch is always invoked with the
lowercased, parenthetical-stripped, trimmed query; the translation call is
always invoked with the parenthetical-stripped, trimmed query in its
original casing (not lowercased). -/
theorem claim5_amended (env : Env) (fs : FS) (word : Str) :
    (∀ q', Event.folkets q' ∈ (process_word env fs word).events →
      q' = pyLower (queryOf word)) ∧
    (∀ q', Event.trans q' ∈ (process_word env fs word).events →
      q' = queryOf word) := by
  by_cases hd : displayOf word = []
  · unfold process_word
    rw [if_pos hd]
    constructor <;> intro q' hmem <;> simp at hmem
  · by_cases hu : usable (env.folkets (pyLower (queryOf word))) = true
    · obtain ⟨h, hf, hh⟩ : ∃ h, env.folkets (pyLower (queryOf word)) = some h ∧ h ≠ [] := by
        cases hfq : env.folkets (pyLower (queryOf word)) with
        | none => rw [hfq] at hu; simp [usable] at hu
        | some h =>
          rw [hfq] at hu
          exact ⟨h, rfl, by simpa [usable, List.isEmpty_iff] using hu⟩
      rw [process_word_primary env fs word h hd hf hh]
      obtain ⟨extra, he, hn⟩ := audioPhase_events env fs _ (queryOf word) h
      rw [he]
      constructor <;> intro q' hmem <;> rcases List.mem_append.mp hmem with h1 | h2
      · simp at h1
        exact h1
      · have := hn _ h2
        simp [isNet] at this
      · simp at h1
      · have := hn _ h2
        simp [isNet] at this
    · rw [process_word_noPrimary env fs word hd (by simpa using hu)]
      obtain ⟨extra, he, hn⟩ := fallbackStep_events env fs _ (queryOf word)
      rw [he]
      constructor <;> intro q' hmem
      · rcases List.mem_append.mp hmem with h1 | h2
        · simp at h1
          exact h1
        · rcases List.mem_cons.mp h2 with h3 | h4
          · simp at h3
          · have := hn _ h4
            simp [isNet] at this
      · rcases List.mem_append.mp hmem with h1 | h2
        · simp at h1
        · rcases List.mem_cons.mp h2 with h3 | h4
          · simpa using h3
          · have := hn _ h4
            simp [isNet] at this

/-- Witness for the amended C5. -/
theorem claim5_amended_witness :
    (("hej".data : Str) = pyLower (queryOf ("Hej".data))) ∧
    (("Hej".data : Str) = queryOf ("Hej".data)) :=
  ⟨(claim5_amended envTrans fs0 ("Hej".data)).1 ("hej".data) (by decide),
   (claim5_amended envTrans fs0 ("Hej".data)).2 ("Hej".data) (by decide)⟩

/-! ### Claim C6 -/

theorem ttsSynth_definition (fs : FS) (evs : List Event) (q h : Str) :
    (ttsSynth fs evs q h).definition = some h := by
  unfold ttsSynth
  by_cases hm : fs.mem (joinPath AUDIO_DIR (sanitizeKelly q ++ ".mp3".data)) = true
  · rw [if_pos hm]
  · rw [if_neg hm]

theorem ttsSynth_sound (fs : FS) (evs : List Event) (q h : Str) :
    (ttsSynth fs evs q h).sound = some (sanitizeKelly q ++ ".mp3".data) := by
  unfold ttsSynth
  by_cases hm : fs.mem (joinPath AUDIO_DIR (sanitizeKelly q ++ ".mp3".data)) = true
  · rw [if_pos hm]
  · rw [if_neg hm]

/-- After the TTS branch, the synthesized file is present. -/
theorem ttsSynth_creates (fs : FS) (evs : List Event) (q h : Str) :
    (ttsSynth fs evs q h).fs.mem
      (joinPath AUDIO_DIR (sanitizeKelly q ++ ".mp3".data)) = true := by
  unfold ttsSynth
  by_cases hm : fs.mem (joinPath AUDIO_DIR (sanitizeKelly q ++ ".mp3".data)) = true
  · rw [if_pos hm]
    exact hm
  · rw [if_neg hm]
    exact FS.mem_add _ _

/-- Re-running `ttsStep` from any directory state that contains everything
the first run produced performs no events and leaves the state unchanged. -/
theorem ttsStep_second (fs fs' : FS) (evs evs' : List Event) (q h : Str)
    (sound : Option Str)
    (hsub : FSsub (ttsStep fs evs q h sound).fs fs') :
    ttsStep fs' evs' q h sound =
      ⟨(ttsStep fs evs q h sound).definition, (ttsStep fs evs q h sound).sound,
       fs', evs'⟩ := by
  have hsynth : FSsub (ttsSynth fs evs q h).fs fs' →
      ttsSynth fs' evs' q h =
        ⟨(ttsSynth fs evs q h).definition, (ttsSynth fs evs q h).sound,
         fs', evs'⟩ := by
    intro hs
    have hmem : fs'.mem (joinPath AUDIO_DIR (sanitizeKelly q ++ ".mp3".data)) = true :=
      hs _ (ttsSynth_creates fs evs q h)
    rw [ttsSynth_definition, ttsSynth_sound]
    unfold ttsSynth
    rw [if_pos hmem]
  unfold ttsStep at hsub ⊢
  cases sound with
  | none => exact hsynth hsub
  | some s =>
    dsimp only at hsub ⊢
    by_cases he : s = []
    · simp only [if_pos he] at hsub ⊢
      exact hsynth hsub
    · simp only [if_neg he]

/-- Re-running the audio phase (with every download succeeding) from a
directory state containing the first run's files performs no download or
synthesis and returns the same content and filename. -/
theorem audioPhase_second (env : Env) (fs fs' : FS) (evs evs' : List Event)
    (q h : Str) (hdl : ∀ u, env.download u = true)
    (hsub : FSsub (audioPhase env fs evs q h).fs fs') :
    audioPhase env fs' evs' q h =
      ⟨(audioPhase env fs evs q h).definition, (audioPhase env fs evs q h).sound,
       fs', evs'⟩ := by
  unfold audioPhase at *
  cases hx : extract_mp3_url h with
  | none =>
    rw [hx] at hsub
    exact ttsStep_second fs fs' evs evs' q h none hsub
  | some url =>
    rw [hx] at hsub
    dsimp only at *
    by_cases hm : fs.mem (joinPath AUDIO_DIR (basename url)) = true
    · rw [if_pos hm] at hsub
      have hm' : fs'.mem (joinPath AUDIO_DIR (basename url)) = true := by
        apply hsub
        exact ttsStep_fs_sub fs evs q _ _ _ hm
      rw [if_pos hm', if_pos hm]
      exact ttsStep_second fs fs' evs evs' q _ _ hsub
    · rw [if_neg hm, if_pos (hdl url)] at hsub
      have hm' : fs'.mem (joinPath AUDIO_DIR (basename url)) = true := by
        apply hsub
        apply ttsStep_fs_sub (fs.add (joinPath AUDIO_DIR (basename url)))
          (evs ++ (Event.download url) :: []) q _ _
        exact FS.mem_add _ _
      rw [if_pos hm', if_neg hm, if_pos (hdl url)]
      exact ttsStep_second _ fs' _ evs' q _ _ hsub

/-- Re-running `process_word` (all downloads succeeding) from a directory
state containing the first run's files performs no download or synthesis
calls and leaves the directory unchanged. -/
theorem process_word_second (env : Env) (fs fs' : FS) (word : Str)
    (hdl : ∀ u, env.download u = true)
    (hsub : FSsub (process_word env fs word).fs fs') :
    (process_word env fs' word).fs = fs' ∧
    ((process_word env fs' word).events).filter isNet = [] := by
  by_cases hd : displayOf word = []
  · unfold process_word at *
    rw [if_pos hd] at *
    exact ⟨rfl, rfl⟩
  · by_cases hu : usable (env.folkets (pyLower (queryOf word))) = true
    · obtain ⟨h, hf, hh⟩ : ∃ h, env.folkets (pyLower (queryOf word)) = some h ∧ h ≠ [] := by
        cases hfq : env.folkets (pyLower (queryOf word)) with
        | none => rw [hfq] at hu; simp [usable] at hu
        | some h =>
          rw [hfq] at hu
          exact ⟨h, rfl, by simpa [usable, List.isEmpty_iff] using hu⟩
      rw [process_word_primary env fs word h hd hf hh] at hsub
      rw [process_word_primary env fs' word h hd hf hh]
      rw [audioPhase_second env fs fs' _ _ (queryOf word) h hdl hsub]
      exact ⟨rfl, by simp [isNet]⟩
    · have hu' : usable (env.folkets (pyLower (queryOf word))) = false := by
        simpa using hu
      rw [process_word_noPrimary env fs word hd hu'] at hsub
      rw [process_word_noPrimary env fs' word hd hu']
      unfold fallbackStep at *
      cases htr : env.translate (queryOf word) with
      | none =>
        exact ⟨rfl, by simp [isNet]⟩
      | some t =>
        rw [htr] at hsub
        dsimp only at *
        by_cases hte : t = []
        · rw [if_pos hte]
          exact ⟨rfl, by simp [isNet]⟩
        · rw [if_neg hte] at hsub
          rw [if_neg hte]
          rw [audioPhase_second env fs fs' _ _ (queryOf word) t hdl hsub]
          exact ⟨rfl, by simp [isNet]⟩

theorem processRow_fs (env : Env) (fs : FS) (row : Row) :
    (processRow env fs row).fs = (process_word env fs (pyStrip row.word)).fs := by
  unfold processRow
  dsimp only
  cases (process_word env fs (pyStrip row.word)).definition with
  | none => rfl
  | some d =>
    dsimp only
    by_cases hd : d = []
    · rw [if_pos hd]
    · rw [if_neg hd]

theorem processRow_events (env : Env) (fs : FS) (row : Row) :
    (processRow env fs row).events =
      (process_word env fs (pyStrip row.word)).events := by
  unfold processRow
  dsimp only
  cases (process_word env fs (pyStrip row.word)).definition with
  | none => rfl
  | some d =>
    dsimp only
    by_cases hd : d = []
    · rw [if_pos hd]
    · rw [if_neg hd]

theorem kellyRun_fs_sub (env : Env) (rows : List Row) :
    ∀ fs, FSsub fs (kellyRun env fs rows).1 := by
  induction rows with
  | nil => intro fs; exact FSsub.refl fs
  | cons row rest ih =>
    intro fs
    simp only [kellyRun]
    refine FSsub.trans ?_ (ih (processRow env fs row).fs)
    rw [processRow_fs]
    rw [process_word_strip]
    exact process_word_fs_sub env fs row.word

/-- Re-running the whole Kelly loop from any directory state containing
the first run's final state performs no download or synthesis calls. -/
theorem kellyRun_second (env : Env) (hdl : ∀ u, env.download u = true)
    (rows : List Row) :
    ∀ fs g, FSsub (kellyRun env fs rows).1 g →
      (kellyRun env g rows).1 = g ∧
      ((kellyRun env g rows).2.1).filter isNet = [] := by
  induction rows with
  | nil => intro fs g _; exact ⟨rfl, rfl⟩
  | cons row rest ih =>
    intro fs g hsub
    simp only [kellyRun] at hsub
    have hrow : FSsub (processRow env fs row).fs g :=
      FSsub.trans (kellyRun_fs_sub env rest (processRow env fs row).fs) hsub
    rw [processRow_fs, process_word_strip] at hrow
    obtain ⟨hfs2, hev2⟩ := process_word_second env fs g row.word hdl hrow
    have hfs2' : (processRow env g row).fs = g := by
      rw [processRow_fs, process_word_strip]
      exact hfs2
    have hev2' : ((processRow env g row).events).filter isNet = [] := by
      rw [processRow_events, process_word_strip]
      exact hev2
    obtain ⟨hrest1, hrest2⟩ := ih (processRow env fs row).fs g hsub
    simp only [kellyRun]
    rw [hfs2']
    exact ⟨hrest1, by rw [List.filter_append, hev2', hrest2]; rfl⟩

/-- **C6**: the audio cache is idempotent.  (i) In the download branch,
when the file named by the URL's basename is already present, no download
or synthesis call happens; (ii) in the synthesis branch, when the derived
TTS file is already present, no call happens; (iii) running the whole
pipeline a second time over the same rows starting from the first run's
audio directory (downloads succeeding) performs zero download or synthesis
calls. -/
theorem claim6_idempotent_cache :
    (∀ (env : Env) (fs : FS) (word h url : Str), displayOf word ≠ [] →
      env.folkets (pyLower (queryOf word)) = some h → h ≠ [] →
      extract_mp3_url h = some url → basename url ≠ [] →
      fs.mem (joinPath AUDIO_DIR (basename url)) = true →
      ((process_word env fs word).events).filter isNet = []) ∧
    (∀ (env : Env) (fs : FS) (word h : Str), displayOf word ≠ [] →
      env.folkets (pyLower (queryOf word)) = some h → h ≠ [] →
      extract_mp3_url h = none →
      fs.mem (joinPath AUDIO_DIR (sanitizeKelly (queryOf word) ++ ".mp3".data)) = true →
      ((process_word env fs word).events).filter isNet = []) ∧
    (∀ (env : Env) (fs : FS) (rows : List Row), (∀ u, env.download u = true) →
      ((kellyRun env (kellyRun env fs rows).1 rows).2.1).filter isNet = []) := by
  refine ⟨?_, ?_, ?_⟩
  · intro env fs word h url hd hf hh hx hb hm
    rw [process_word_primary env fs word h hd hf hh]
    unfold audioPhase
    rw [hx]
    dsimp only
    rw [if_pos hm]
    unfold ttsStep
    dsimp only
    rw [if_neg hb]
    simp [isNet]
  · intro env fs word h hd hf hh hx hm
    rw [process_word_primary env fs word h hd hf hh]
    unfold audioPhase
    rw [hx]
    unfold ttsStep ttsSynth
    dsimp only
    rw [if_pos hm]
    simp [isNet]
  · intro env fs rows hdl
    exact (kellyRun_second env hdl rows fs _ (FSsub.refl _)).2

/-- Witness for C6 at concrete inputs: a pre-populated directory
short-circuits both branches, and a second full run is silent. -/
theorem claim6_idempotent_cache_witness :
    ((process_word envHit (fs0.add (joinPath AUDIO_DIR (basename urlW)))
        ("hej".data)).events).filter isNet = [] ∧
    ((process_word envPlain
        (fs0.add (joinPath AUDIO_DIR
          (sanitizeKelly (queryOf ("hej".data)) ++ ".mp3".data)))
        ("hej".data)).events).filter isNet = [] ∧
    ((kellyRun envHit
        (kellyRun envHit fs0 (⟨"hej".data, "A1".data⟩ :: [])).1
        (⟨"hej".data, "A1".data⟩ :: [])).2.1).filter isNet = [] := by
  refine ⟨?_, ?_, ?_⟩
  · exact claim6_idempotent_cache.1 envHit _ ("hej".data) fragW urlW (by decide) rfl
      (by decide) (by decide) (by decide) (by decide)
  · exact claim6_idempotent_cache.2.1 envPlain _ ("hej".data) ("<p>bara text</p>".data)
      (by decide) rfl (by decide) (by decide) (by decide)
  · exact claim6_idempotent_cache.2.2 envHit fs0 (⟨"hej".data, "A1".data⟩ :: [])
      (fun _ => rfl)

/-! ### Claim C7 -/

/-- **C7, counterexample**: the claim says both pipelines replace embedded
newlines with `<br>` before writing.  The glossary pipeline performs no
such replacement: a scraped definition containing a newline reaches the
output record verbatim (while the Kelly assembly does remove it). -/
theorem claim7_counterexample :
    '\n' ∈ riksRecord [] ("x".data) ('a' :: '\n' :: 'b' :: []) ∧
    '\n' ∉ assembleDefLine ('a' :: '\n' :: 'b' :: []) none := by
  refine ⟨by decide, by decide⟩

/-- **C7, amended**: in the Kelly pipeline every newline of the
lookup-derived definition is replaced by `<br>` during row assembly (the
assembled content is newline-free whenever the audio filename is), and the
emitted record's content field is exactly that assembly; in the glossary
pipeline no replacement happens — the scraped Swedish definition is
embedded verbatim in the back field. -/
theorem claim7_single_line :
    (∀ (d : Str) (opt : Option Str), (∀ s, opt = some s → '\n' ∉ s) →
      '\n' ∉ assembleDefLine d opt) ∧
    (∀ (env : Env) (fs : FS) (row : Row) (w d t : Str),
      (processRow env fs row).out = some (w, d, t) →
      ∃ d0, (process_word env fs (pyStrip row.word)).definition = some d0 ∧
        d = assembleDefLine d0 (process_word env fs (pyStrip row.word)).sound) ∧
    (∀ (emap : EngMap) (term sw : Str),
      riksRecord emap term sw =
        (term ++ ' ' :: soundMarker (sanitize_filename term ++ ".mp3".data)) ++
          '\t' :: (sw ++ ("<br><br>".data ++
            (if (engEntry emap term).1 ≠ [] then
              "<div style=\"font-size:1.2em; font-weight:bold;\">".data ++
                (engEntry emap term).1 ++ "</div>".data ++ "<div>".data ++
                (engEntry emap term).2 ++ "</div>".data
             else [])))) := by
  refine ⟨?_, ?_, ?_⟩
  · intro d opt hopt
    unfold assembleDefLine
    dsimp only
    cases opt with
    | none => exact replaceNl_no_newline d
    | some s =>
      dsimp only
      by_cases hc : s ≠ [] ∧ strContains (replaceNl d) soundMarkerPrefix = false
      · rw [if_pos hc]
        intro hmem
        rcases List.mem_append.mp hmem with h1 | h2
        · exact replaceNl_no_newline d h1
        · rcases List.mem_cons.mp h2 with h3 | h4
          · exact absurd h3 (by decide)
          · rw [soundMarker_decomp] at h4
            rcases List.mem_append.mp h4 with h5 | h6
            · revert h5
              decide
            · rcases List.mem_append.mp h6 with h7 | h8
              · exact hopt s rfl h7
              · revert h8
                decide
      · rw [if_neg hc]
        exact replaceNl_no_newline d
  · intro env fs row w d t hout
    unfold processRow at hout
    dsimp only at hout
    cases hdef : (process_word env fs (pyStrip row.word)).definition with
    | none => rw [hdef] at hout; simp at hout
    | some d0 =>
      rw [hdef] at hout
      dsimp only at hout
      by_cases hd0 : d0 = []
      · rw [if_pos hd0] at hout; simp at hout
      · rw [if_neg hd0] at hout
        simp only [Option.some.injEq, Prod.mk.injEq] at hout
        exact ⟨d0, rfl, hout.2.1.symm⟩
  · intro emap term sw
    unfold riksRecord engEntry
    dsimp only
    simp [List.append_assoc]

/-- Witness for the amended C7 at concrete inputs. -/
theorem claim7_single_line_witness :
    ('\n' ∉ assembleDefLine ('a' :: '\n' :: 'b' :: []) (some ("x.mp3".data))) ∧
    (∃ d0, (process_word envTrans fs0 (pyStrip ("Hej".data))).definition = some d0 ∧
      ("THej [sound:Hej.mp3]".data : Str) =
        assembleDefLine d0 (process_word envTrans fs0 (pyStrip ("Hej".data))).sound) :=
  ⟨claim7_single_line.1 ('a' :: '\n' :: 'b' :: []) (some ("x.mp3".data))
      (by intro s hs; injection hs with h; subst h; decide),
   claim7_single_line.2.1 envTrans fs0 ⟨"Hej".data, "A1".data⟩ ("Hej".data)
      ("THej [sound:Hej.mp3]".data) ("A1".data) (by decide)⟩

/-! ### Claim C8 -/

/-- The Kelly loop's byte stream is the newline-join of its record lines. -/
theorem kellyWrites_eq (env : Env) (rows : List Row) :
    ∀ fs, kellyWrites env fs rows = joinNl (kellyRun env fs rows).2.2 := by
  induction rows with
  | nil => intro fs; rfl
  | cons row rest ih =>
    intro fs
    simp only [kellyWrites, kellyRun]
    cases (processRow env fs row).out with
    | none => simpa using ih (processRow env fs row).fs
    | some r => simp [joinNl, ih (processRow env fs row).fs]

/-- The Riksdagen loop's byte stream is the newline-join of its record
lines. -/
theorem riksWrites_eq (emap : EngMap) (entries : List (Str × Str)) :
    ∀ fs, riksWrites fs emap entries = joinNl (riksRun fs emap entries).2.2 := by
  induction entries with
  | nil => intro fs; rfl
  | cons e rest ih =>
    intro fs
    cases e with
    | mk term sw =>
      simp only [riksWrites, riksRun]
      simp [joinNl, ih (riksProcess fs emap term sw).1]

/-- **C8, counterexample**: the claim says both output files consist of the
four directive lines immediately followed by the data lines.  The glossary
script's fourth header write is `f"#deck:{DECK_NAME}\n\n"`, so its output
has an empty fifth line between the directives and the data. -/
theorem claim8_counterexample :
    linesOf (riksStream fs0 [] (("x".data, "y".data) :: [])) =
      ("#separator:Tab".data) :: ("#columns:Swedish\tDefinition".data) ::
      ("#notetype:Basic".data) :: ("#deck:LawGlossary".data) :: ([]) ::
      (riksRecord [] ("x".data) ("y".data)) :: ([]) :: [] ∧
    linesOf (riksStream fs0 [] (("x".data, "y".data) :: [])) ≠
      riksHeaderLines ++ ((riksRun fs0 [] (("x".data, "y".data) :: [])).2.2 ++ ([]) :: []) := by
  refine ⟨by decide, by decide⟩

/-- **C8, amended**: the Kelly output stream is exactly the four directive
lines followed immediately by the data lines; the glossary output stream is
the four directive lines followed by one blank line and then the data
lines. -/
theorem claim8_header_shape :
    (∀ (env : Env) (fs : FS) (rows : List Row),
      kellyStream env fs rows =
        joinNl kellyHeaderLines ++ joinNl (kellyRun env fs rows).2.2) ∧
    (∀ (fs : FS) (emap : EngMap) (entries : List (Str × Str)),
      riksStream fs emap entries =
        joinNl riksHeaderLines ++ '\n' :: joinNl (riksRun fs emap entries).2.2) := by
  constructor
  · intro env fs rows
    unfold kellyStream
    rw [kellyWrites_eq]
    have hh : ("#separator:Tab\n".data : Str) ++ ("#columns:Word\tDefinition\tTags\n".data ++
        ("#notetype:Basic\n".data ++ ("#deck:KellyList\n".data))) =
        joinNl kellyHeaderLines := by decide
    rw [← hh]
    simp [List.append_assoc]
  · intro fs emap entries
    unfold riksStream
    rw [riksWrites_eq]
    have hh : ("#separator:Tab\n".data : Str) ++ ("#columns:Swedish\tDefinition\n".data ++
        ("#notetype:Basic\n".data ++ ("#deck:LawGlossary\n\n".data))) =
        joinNl riksHeaderLines ++ '\n' :: [] := by decide
    have := congrArg (fun l => l ++ joinNl (riksRun fs emap entries).2.2) hh
    dsimp only at this
    simp only [List.append_assoc] at this ⊢
    simpa using this

/-! ### Claim C9 -/

/-- **C9, counterexample**: the claim says the two scripts derive the same
synthesized-audio filename (non-alphanumeric characters other than `-` and
`_` replaced by `_`).  On the Swedish letter `å` they disagree: the Kelly
script's ASCII character class `[^A-Za-z0-9_-]` replaces it with `_`,
while the glossary script's Unicode `str.isalnum` keeps it. -/
theorem claim9_counterexample :
    sanitizeKelly ("å".data) = ('_' : Char) :: [] ∧
    sanitize_filename ("å".data) = "å".data ∧
    sanitizeKelly ("å".data) ≠ sanitize_filename ("å".data) := by
  refine ⟨by decide, by decide, by decide⟩

/-- **C9, amended**: both scripts derive the filename character-wise, each
keeping `-` and `_`; the Kelly script keeps exactly the ASCII alphanumerics
while the glossary script keeps Unicode alphanumerics, so the two
derivations agree on ASCII-only text (and differ on non-ASCII letters such
as `å`). -/
theorem claim9_sanitize_agree (t : Str)
    (ht : t.all (fun c => decide (c.toNat < 128)) = true) :
    sanitizeKelly t = sanitize_filename t := by
  unfold sanitizeKelly sanitize_filename
  apply List.map_congr_left
  intro c hc
  have h128 : c.toNat < 128 := by
    have := List.all_eq_true.mp ht c hc
    simpa using this
  have hno : pyIsAlnum c =
      (('A' ≤ c && c ≤ 'Z') || ('a' ≤ c && c ≤ 'z') || ('0' ≤ c && c ≤ '9')) := by
    unfold pyIsAlnum
    rw [decide_eq_false (by omega : ¬ (0xC0 ≤ c.toNat)),
        decide_eq_false (by omega : ¬ (c.toNat = 0xAA)),
        decide_eq_false (by omega : ¬ (c.toNat = 0xB5)),
        decide_eq_false (by omega : ¬ (c.toNat = 0xBA)),
        decide_eq_false (by omega : ¬ (c.toNat = 0xB2)),
        decide_eq_false (by omega : ¬ (c.toNat = 0xB3)),
        decide_eq_false (by omega : ¬ (c.toNat = 0xB9)),
        decide_eq_false (by omega : ¬ (c.toNat = 0xBC)),
        decide_eq_false (by omega : ¬ (c.toNat = 0xBD)),
        decide_eq_false (by omega : ¬ (c.toNat = 0xBE))]
    simp
  rw [hno]
  by_cases hd : c = '-' <;> by_cases hu : c = '_' <;>
    simp [hd, hu, Bool.or_comm, Bool.or_assoc, Bool.or_left_comm]

/-- Witness for the amended C9 on an ASCII string. -/
theorem claim9_sanitize_agree_witness :
    sanitizeKelly ("hej pa dig-2_x!".data) = sanitize_filename ("hej pa dig-2_x!".data) :=
  claim9_sanitize_agree ("hej pa dig-2_x!".data) (by decide)

/-! ### Claim C10 -/

theorem riksProcess_creates (fs : FS) (emap : EngMap) (term sw : Str) :
    ((riksProcess fs emap term sw).1).mem
      (joinPath MEDIA_DIR (sanitize_filename term ++ ".mp3".data)) = true := by
  unfold riksProcess
  dsimp only
  by_cases hm : fs.mem (joinPath MEDIA_DIR (sanitize_filename term ++ ".mp3".data)) = true
  · rw [if_pos hm]
    exact hm
  · rw [if_neg hm]
    exact FS.mem_add _ _

theorem riksProcess_fs_sub (fs : FS) (emap : EngMap) (term sw : Str) :
    FSsub fs (riksProcess fs emap term sw).1 := by
  unfold riksProcess
  dsimp only
  by_cases hm : fs.mem (joinPath MEDIA_DIR (sanitize_filename term ++ ".mp3".data)) = true
  · rw [if_pos hm]
    exact FSsub.refl fs
  · rw [if_neg hm]
    exact FSsub.add _ _

theorem riksRun_fs_sub (emap : EngMap) (entries : List (Str × Str)) :
    ∀ fs, FSsub fs (riksRun fs emap entries).1 := by
  induction entries with
  | nil => intro fs; exact FSsub.refl fs
  | cons e rest ih =>
    intro fs
    cases e with
    | mk term sw =>
      simp only [riksRun]
      exact FSsub.trans (riksProcess_fs_sub fs emap term sw)
        (ih (riksProcess fs emap term sw).1)

/-- **C10**: in the glossary pipeline every scraped (heading, paragraph)
pair yields exactly one output record — the record list is the map of
`riksRecord` over the entries — with the front field of the form
`<term> [sound:<filename>]`; for every entry the derived audio file exists
after the run; and a term missing from the English mapping is still
emitted, its back field holding only the Swedish definition (the English
part empty). -/
theorem claim10_glossary_records (fs : FS) (emap : EngMap)
    (entries : List (Str × Str)) :
    ((riksRun fs emap entries).2.2 =
      entries.map (fun e => riksRecord emap e.1 e.2)) ∧
    (∀ e ∈ entries, ((riksRun fs emap entries).1).mem
      (joinPath MEDIA_DIR (sanitize_filename e.1 ++ ".mp3".data)) = true) ∧
    (∀ term sw : Str, emap.lookup (pyLower term) = none →
      riksRecord emap term sw =
        (term ++ ' ' :: soundMarker (sanitize_filename term ++ ".mp3".data)) ++
          '\t' :: (sw ++ "<br><br>".data)) := by
  refine ⟨?_, ?_, ?_⟩
  · induction entries generalizing fs with
    | nil => rfl
    | cons e rest ih =>
      cases e with
      | mk term sw =>
        simp only [riksRun, List.map_cons]
        rw [ih (riksProcess fs emap term sw).1]
        rfl
  · induction entries generalizing fs with
    | nil => intro e he; simp at he
    | cons e0 rest ih =>
      intro e he
      cases e0 with
      | mk term sw =>
        rcases List.mem_cons.mp he with h1 | h2
        · subst h1
          simp only [riksRun]
          exact riksRun_fs_sub emap rest (riksProcess fs emap term sw).1 _
            (riksProcess_creates fs emap term sw)
        · simp only [riksRun]
          exact ih (riksProcess fs emap term sw).1 e h2
  · intro term sw hnone
    unfold riksRecord engEntry
    rw [hnone]
    dsimp only
    rw [if_neg (by simp)]
    simp

/-- Witness for C10 at a concrete entry list and empty mapping. -/
theorem claim10_glossary_records_witness :
    ((riksRun fs0 [] (("x".data, "y".data) :: [])).1).mem
      (joinPath MEDIA_DIR (sanitize_filename ("x".data) ++ ".mp3".data)) = true ∧
    riksRecord [] ("x".data) ("y".data) =
      (("x".data : Str) ++ ' ' :: soundMarker (sanitize_filename ("x".data) ++ ".mp3".data)) ++
        '\t' :: (("y".data : Str) ++ "<br><br>".data) :=
  ⟨(claim10_glossary_records fs0 [] (("x".data, "y".data) :: [])).2.1
      ("x".data, "y".data) (by decide),
   (claim10_glossary_records fs0 [] (("x".data, "y".data) :: [])).2.2
      ("x".data) ("y".data) rfl⟩

end KellyList
